import Mathlib

/-!
Shallow embedding of `slurm-ad-sync.py`: a script that reconciles Active
Directory groups named `slurm_*` with slurmdbd accounts/users by invoking
`sacctmgr`.  The scheduler database is modelled as a `SchedState` (account
names plus `(login, default account)` rows); the textual output of each
`sacctmgr list` invocation is rendered from that state exactly as the real
tool prints it (`--parsable2` account list with its `Account|Cluster`
header line, plain `format=User` listing with its `User` / dashes header,
`--parsable2` `format=DefaultAccount` listing with its `Def Acct` header),
and the Python parsing code is translated line by line.  Subprocess
failures are modelled by a `World`: `queriesOk = false` means the read-only
`sacctmgr list` commands exit nonzero (empty stdout, no exception since the
script does not pass `check=True` on them), and `failing` is the set of
mutating commands that exit nonzero (raising `CalledProcessError`, since
the mutating calls do pass `check=True`).  AD member resolution
(`samdb.search` on the member DN) is modelled by `Lookup`: it can raise
(`Lookup.err`, an uncaught `LdbError`), return no entry, or return entries
whose attributes are association lists.
-/

namespace SlurmAdSync

/-! ### String helpers mirroring the Python operations used by the script -/

/-- Model of Python `line.split('|')[0]`: the characters before the first
`'|'` (the whole line when no bar occurs). -/
def firstField (line : String) : String :=
  ⟨line.data.takeWhile (fun c => c != '|')⟩

/-- Substring test on character lists: some tail of `h` starts with `n`. -/
def hasSub (n h : List Char) : Bool :=
  h.tails.any (fun t => n.isPrefixOf t)

/-- Model of Python `n in h` on strings: `n` occurs as a contiguous
substring of `h`. -/
def strContains (n h : String) : Bool :=
  hasSub n.data h.data

/-- Join lines with newline separators (how multi-line command output is
assembled before the script scans it). -/
def joinLines : List String → String
  | [] => ""
  | [l] => l
  | l :: l2 :: ls => l ++ "\n" ++ joinLines (l2 :: ls)

/-! ### Scheduler state and the `sacctmgr` query/mutation model -/

/-- Snapshot of the slurmdbd accounting database: the account names and the
users, each user being a `(login, default account)` row. -/
structure SchedState where
  accounts : List String
  users : List (String × String)
deriving DecidableEq

/-- The three mutating `sacctmgr` commands the script can issue. -/
inductive Action
  | createAccount (g : String)
  | createUser (l : String) (g : String)
  | setDefault (l : String) (g : String)
deriving DecidableEq

/-- Environment of one run: whether the read-only `sacctmgr list` queries
succeed, and which mutating commands exit nonzero (raising
`CalledProcessError` because the script passes `check=True` on them). -/
structure World where
  queriesOk : Bool
  failing : List Action
deriving DecidableEq

/-- The cluster name column printed by `sacctmgr list account
format=Account,Cluster --parsable2`. -/
def clusterName : String := "cluster1"

/-- Rows of `st.users` whose login equals `L`: what `sacctmgr list user L`
reports, since sacctmgr filters by exact user name. -/
def rowsOf (L : String) (st : SchedState) : List (String × String) :=
  st.users.filter (fun u => u.1 == L)

/-- Lines of `sacctmgr list account format=Account,Cluster --parsable2`:
the `Account|Cluster` header then one `name|cluster` line per account.  A
failed query (nonzero exit) leaves stdout empty, hence no lines. -/
def accountListLines (w : World) (st : SchedState) : List String :=
  if w.queriesOk then
    "Account|Cluster" :: st.accounts.map (fun a => a ++ "|" ++ clusterName)
  else []

/-- Translation of `slurm_group_exists`: scan every output line (header
included) and compare its first `'|'`-separated field with the group
name. -/
def slurm_group_exists (w : World) (st : SchedState) (group_name : String) : Bool :=
  (accountListLines w st).any (fun line => firstField line == group_name)

/-- Output of `sacctmgr list user L format=User` (no `--parsable2`): the
`User` header and dashes line, then the matching user rows; empty when the
query fails.  Column padding spaces are omitted: they are whitespace only
and cannot affect the substring test applied to this output. -/
def userListOutput (w : World) (st : SchedState) (L : String) : String :=
  if w.queriesOk then
    joinLines ("User" :: "----------" :: (rowsOf L st).map Prod.fst)
  else ""

/-- Header part of the `format=User` listing, for stating where the
substring test of `slurm_user_exists` can go wrong. -/
def userHeader : String := joinLines ["User", "----------"]

/-- Translation of `slurm_user_exists`: Python `username in output`, a
substring test against the whole command output. -/
def slurm_user_exists (w : World) (st : SchedState) (username : String) : Bool :=
  strContains username (userListOutput w st username)

/-- Header line of `sacctmgr list user L format=DefaultAccount
--parsable2`. -/
def defAcctHeader : String := "Def Acct"

/-- Lines of `sacctmgr list user L format=DefaultAccount --parsable2`: the
`Def Acct` header then the default account of each matching row; empty when
the query fails.  `--parsable2` lines carry no surrounding whitespace, so
Python's `line.strip()` is the identity on them. -/
def defaultAcctLines (w : World) (st : SchedState) (L : String) : List String :=
  if w.queriesOk then defAcctHeader :: (rowsOf L st).map Prod.snd else []

/-- Translation of `slurm_user_in_group`: compare the group name for
equality with every output line (header included). -/
def slurm_user_in_group (w : World) (st : SchedState) (username group_name : String) : Bool :=
  (defaultAcctLines w st username).any (fun line => group_name == line)

/-- Effect of `sacctmgr -i add account G` on the accounting database. -/
def addAccount (g : String) (st : SchedState) : SchedState :=
  { st with accounts := st.accounts ++ [g] }

/-- Effect of `sacctmgr -i add user L account=G`: creates the user with `G`
as default account. -/
def addUser (L g : String) (st : SchedState) : SchedState :=
  { st with users := st.users ++ [(L, g)] }

/-- Effect of `sacctmgr -i modify user where name=L set DefaultAccount=G`:
rewrites the default account of every row whose login is `L` (a no-op when
no such row exists). -/
def modifyDefault (L g : String) (st : SchedState) : SchedState :=
  { st with users := st.users.map (fun u => if u.1 == L then (u.1, g) else u) }

/-- Meaning of one emitted action as a scheduler-state transformer. -/
def applyAction (a : Action) (st : SchedState) : SchedState :=
  match a with
  | Action.createAccount g => addAccount g st
  | Action.createUser l g => addUser l g st
  | Action.setDefault l g => modifyDefault l g st

/-- Apply a list of actions in order. -/
def applyActions (acts : List Action) (st : SchedState) : SchedState :=
  acts.foldl (fun s a => applyAction a s) st

/-! ### Directory model and member resolution -/

/-- An AD entry: an association list from attribute name to value list. -/
abbrev Entry := List (String × List String)

/-- Attribute access `entry[attr]` guarded by `attr in entry`. -/
def getAttr (e : Entry) (attr : String) : Option (List String) :=
  (e.find? (fun p => p.1 == attr)).map Prod.snd

/-- Body of `extract_username` before its `except` clause: `entry[
"sAMAccountName"][0]` raises `IndexError` when the attribute is present
with an empty value list. -/
def extract_usernameRaw (ad_entry : Entry) : Except Unit (Option String) :=
  match getAttr ad_entry "sAMAccountName" with
  | some [] => Except.error ()
  | some (v :: _) => Except.ok (some v)
  | none => Except.ok none

/-- Translation of `extract_username`: the raised `IndexError` is caught
and turned into `none`, so the caller always receives an `Option`. -/
def extract_username (ad_entry : Entry) : Option String :=
  match extract_usernameRaw ad_entry with
  | Except.ok r => r
  | Except.error _ => none

/-- Outcome of `samdb.search(base=member, scope=0,
attrs=["sAMAccountName"])` for one member DN: the call can raise an
`LdbError` (`err`, not caught anywhere in the script) or return a list of
entries. -/
inductive Lookup
  | err
  | found (entries : List Entry)
deriving DecidableEq

/-- The login a member reference resolves to, if any: the script takes the
first returned entry when the result is non-empty and extracts its
`sAMAccountName`. -/
def resolveMember : Lookup → Option String
  | Lookup.err => none
  | Lookup.found [] => none
  | Lookup.found (e :: _) => extract_username e

/-! ### The per-group procedure `add_to_slurmdbd` and the main loop -/

/-- How the processing of one group ended: normally, stopped by a caught
`CalledProcessError` (`cpe`), or aborted by an uncaught directory lookup
error (`direrr`). -/
inductive StopKind
  | ok
  | cpe
  | direrr
deriving DecidableEq

/-- Result of processing one group: the scheduler state afterwards, the
actions emitted (printed in dry-run mode, attempted in apply mode, in
order), the number of member-resolution warnings printed, and how the
processing ended. -/
structure GroupOut where
  sched : SchedState
  acts : List Action
  warns : Nat
  stop : StopKind
deriving DecidableEq

/-- The member loop of `add_to_slurmdbd`.  Each member's DN lookup either
raises (aborting the whole function with an uncaught exception), yields no
entry (member silently skipped), or yields an entry whose `sAMAccountName`
is extracted (a warning is printed when that fails).  For a resolved login
the script checks existence and default-account association against the
live scheduler state and either creates the user, modifies its default
account, or does nothing; in apply mode a failing mutating command raises
`CalledProcessError`, which the surrounding `try` of `add_to_slurmdbd`
catches, ending the loop early. -/
def processMembers (dry_run : Bool) (w : World) (group_name : String) :
    List Lookup → SchedState → List Action → Nat → GroupOut
  | [], st, acts, warns => ⟨st, acts, warns, StopKind.ok⟩
  | m :: rest, st, acts, warns =>
    match m with
    | Lookup.err => ⟨st, acts, warns, StopKind.direrr⟩
    | Lookup.found [] => processMembers dry_run w group_name rest st acts warns
    | Lookup.found (e :: _) =>
      match extract_username e with
      | none => processMembers dry_run w group_name rest st acts (warns + 1)
      | some L =>
        if !(slurm_user_exists w st L) then
          let a := Action.createUser L group_name
          if dry_run then
            processMembers dry_run w group_name rest st (acts ++ [a]) warns
          else if a ∈ w.failing then ⟨st, acts ++ [a], warns, StopKind.cpe⟩
          else processMembers dry_run w group_name rest (addUser L group_name st) (acts ++ [a]) warns
        else
          if !(slurm_user_in_group w st L group_name) then
            let a := Action.setDefault L group_name
            if dry_run then
              processMembers dry_run w group_name rest st (acts ++ [a]) warns
            else if a ∈ w.failing then ⟨st, acts ++ [a], warns, StopKind.cpe⟩
            else processMembers dry_run w group_name rest (modifyDefault L group_name st) (acts ++ [a]) warns
          else processMembers dry_run w group_name rest st acts warns

/-- Translation of `add_to_slurmdbd`: create the account when the
existence check fails (dry-run prints instead of executing; a failing
`sacctmgr -i add account` raises `CalledProcessError`, caught by the
function's `except`), then run the member loop. -/
def add_to_slurmdbd (group_name : String) (members : List Lookup) (dry_run : Bool)
    (w : World) (st : SchedState) : GroupOut :=
  if !(slurm_group_exists w st group_name) then
    let a := Action.createAccount group_name
    if dry_run then processMembers dry_run w group_name members st [a] 0
    else if a ∈ w.failing then ⟨st, [a], 0, StopKind.cpe⟩
    else processMembers dry_run w group_name members (addAccount group_name st) [a] 0
  else processMembers dry_run w group_name members st [] 0

/-- One AD group as returned by the `(cn=slurm_*)` query: its `cn` and the
lookup outcome of each listed member DN, in directory order. -/
structure DirGroup where
  name : String
  members : List Lookup
deriving DecidableEq

/-- Result of the group loop in `main`: final scheduler state, all emitted
actions in order, total warnings, and whether an uncaught exception
escaped (a member lookup error, which crashes the process). -/
structure RunOut where
  sched : SchedState
  acts : List Action
  warns : Nat
  raised : Bool
deriving DecidableEq

/-- The group loop of `main`: each group is handed to `add_to_slurmdbd`; a
caught `CalledProcessError` only ends that group, but an uncaught lookup
error stops the whole loop. -/
def processGroups (dry_run : Bool) (w : World) : List DirGroup → SchedState → RunOut
  | [], st => ⟨st, [], 0, false⟩
  | g :: rest, st =>
    let r := add_to_slurmdbd g.name g.members dry_run w st
    match r.stop with
    | StopKind.direrr => ⟨r.sched, r.acts, r.warns, true⟩
    | _ =>
      let r2 := processGroups dry_run w rest r.sched
      ⟨r2.sched, r.acts ++ r2.acts, r.warns + r2.warns, r2.raised⟩

/-- Exit code of `main`.  A failed AD connection makes `connect_to_ad`
return `None` and `main` return normally (exit 0); a failed AD group query
makes `get_slurm_groups` return `[]`, which `main` treats exactly like
zero matching groups (return, exit 0); otherwise the group loop runs and
the process exits 0 unless an uncaught exception escapes (exit 1). -/
def mainExit (connectOk dirQueryOk : Bool) (groups : List DirGroup) (dry_run : Bool)
    (w : World) (st : SchedState) : Nat :=
  if !connectOk then 0
  else
    let gs := if dirQueryOk then groups else []
    if gs.isEmpty then 0
    else if (processGroups dry_run w gs st).raised then 1 else 0

/-! ### Derived vocabulary used to state the claims -/

/-- Logins of the existing scheduler users. -/
def userLogins (st : SchedState) : List String :=
  st.users.map Prod.fst

/-- The default account of login `L` (first matching row), if `L` exists. -/
def defaultOf (L : String) (st : SchedState) : Option String :=
  (st.users.find? (fun u => u.1 == L)).map Prod.snd

/-- Logins the members of one group resolve to, in member-list order. -/
def loginsOf (ms : List Lookup) : List String :=
  ms.filterMap resolveMember

/-- All `(login, group name)` pairs a directory snapshot asks the script to
associate, in processing order. -/
def pairsOf : List DirGroup → List (String × String)
  | [] => []
  | g :: rest => (loginsOf g.members).map (fun L => (L, g.name)) ++ pairsOf rest

/-- The action the member loop emits for one member against a fixed
scheduler state (the dry-run case, where the state never changes). -/
def memberAct (w : World) (st : SchedState) (group_name : String) (m : Lookup) : Option Action :=
  match resolveMember m with
  | none => none
  | some L =>
    if !(slurm_user_exists w st L) then some (Action.createUser L group_name)
    else if !(slurm_user_in_group w st L group_name) then some (Action.setDefault L group_name)
    else none

/-- Warnings one member contributes: 1 when an entry came back but no
login could be extracted from it. -/
def warnOf : Lookup → Nat
  | Lookup.found (e :: _) => match extract_username e with | none => 1 | some _ => 0
  | _ => 0

/-- Total warnings of a member list. -/
def warnCount (ms : List Lookup) : Nat :=
  (ms.map warnOf).sum

/-- Actions one group produces in dry-run mode against a fixed state. -/
def groupActs (w : World) (st : SchedState) (g : DirGroup) : List Action :=
  (if slurm_group_exists w st g.name then [] else [Action.createAccount g.name]) ++
    g.members.filterMap (memberAct w st g.name)

/-- Actions a whole dry-run emits against a fixed state. -/
def runActs (w : World) (st : SchedState) : List DirGroup → List Action
  | [] => []
  | g :: rest => groupActs w st g ++ runActs w st rest

/-- Total warnings of a whole run. -/
def runWarnCount (gs : List DirGroup) : Nat :=
  (gs.map (fun g => warnCount g.members)).sum

/-- An action is compatible with login `L` being owned by group `g`: any
user-creation or default-account action naming login `L` targets account
`g`. -/
def okAct (L g : String) : Action → Prop
  | Action.createAccount _ => True
  | Action.createUser l gg => l = L → gg = g
  | Action.setDefault l gg => l = L → gg = g

/-- Login `L` has a row whose default account is `g`. -/
def goodRow (L g : String) (st : SchedState) : Prop :=
  ∃ u ∈ rowsOf L st, u.2 = g

/-- Every existence and association check a dry run over `gs` performs
comes back positive, so nothing is emitted. -/
def Satisfied (w : World) (gs : List DirGroup) (st : SchedState) : Prop :=
  (∀ g ∈ gs, slurm_group_exists w st g.name = true) ∧
    (∀ p ∈ pairsOf gs, slurm_user_exists w st p.1 = true ∧
      slurm_user_in_group w st p.1 p.2 = true)

/-! ### Concrete directory material for the worked examples -/

/-- AD entry of user alice. -/
def aliceEntry : Entry := [("sAMAccountName", ["alice"])]

/-- AD entry of user bob. -/
def bobEntry : Entry := [("sAMAccountName", ["bob"])]

/-- AD entry of a user whose login is the two-letter string `se` (a
substring of the `User` header text). -/
def seEntry : Entry := [("sAMAccountName", ["se"])]

/-- Member DN resolving to alice. -/
def aliceMember : Lookup := Lookup.found [aliceEntry]

/-- Member DN resolving to bob. -/
def bobMember : Lookup := Lookup.found [bobEntry]

/-- Member DN resolving to the login `se`. -/
def seMember : Lookup := Lookup.found [seEntry]

/-- AD entry carrying no `sAMAccountName` attribute. -/
def noAttrEntry : Entry := [("cn", ["someone"])]

/-- World where every `sacctmgr` invocation succeeds. -/
def wOk : World := ⟨true, []⟩

/-- World where the read-only queries succeed but `sacctmgr -i add user
alice account=slurm_bio` exits nonzero. -/
def wFailAlice : World := ⟨true, [Action.createUser "alice" "slurm_bio"]⟩

/-- World where every read-only `sacctmgr list` query exits nonzero. -/
def wBadQueries : World := ⟨false, []⟩

/-- Scheduler snapshot of the worked example: no accounts, one user `bob`
whose default account is `other`. -/
def bobState : SchedState := ⟨[], [("bob", "other")]⟩

/-- Empty scheduler snapshot. -/
def emptySched : SchedState := ⟨[], []⟩

/-- The `slurm_bio` group of the worked example, with members alice and
bob. -/
def bioGroup : DirGroup := ⟨"slurm_bio", [aliceMember, bobMember]⟩

/-- A second, memberless group. -/
def chemGroup : DirGroup := ⟨"slurm_chem", []⟩

/-- Group `slurm_a` containing bob. -/
def aGroup : DirGroup := ⟨"slurm_a", [bobMember]⟩

/-- Group `slurm_b` also containing bob. -/
def bGroup : DirGroup := ⟨"slurm_b", [bobMember]⟩

/-- Group whose member list resolves the same login twice (two member DNs
pointing at alice). -/
def dupGroup : DirGroup := ⟨"slurm_bio", [aliceMember, aliceMember]⟩

/-! ### Substring machinery -/

theorem isPrefixOf_append_self (l t : List Char) : l.isPrefixOf (l ++ t) = true := by
  induction l with
  | nil => simp [List.isPrefixOf]
  | cons a as ih => simp [List.isPrefixOf, ih]

theorem isPrefixOf_self (l : List Char) : l.isPrefixOf l = true := by
  have h := isPrefixOf_append_self l []
  rwa [List.append_nil] at h

theorem self_mem_tails (l : List Char) : l ∈ l.tails := by
  cases l <;> simp [List.tails_cons]

theorem hasSub_of_isPrefixOf {n h : List Char} (hp : n.isPrefixOf h = true) :
    hasSub n h = true := by
  unfold hasSub
  exact List.any_eq_true.mpr ⟨h, self_mem_tails h, hp⟩

theorem hasSub_cons {n : List Char} (a : Char) (h : List Char)
    (hs : hasSub n h = true) : hasSub n (a :: h) = true := by
  unfold hasSub at hs ⊢
  rw [List.tails_cons, List.any_cons, hs, Bool.or_true]

theorem hasSub_append_left {n h : List Char} (x : List Char)
    (hs : hasSub n h = true) : hasSub n (x ++ h) = true := by
  induction x with
  | nil => simpa using hs
  | cons a as ih => exact hasSub_cons a (as ++ h) ih

theorem strContains_append {n y : String} (x : String)
    (hp : n.data.isPrefixOf y.data = true) : strContains n (x ++ y) = true := by
  unfold strContains
  show hasSub n.data (x.data ++ y.data) = true
  exact hasSub_append_left x.data (hasSub_of_isPrefixOf hp)

theorem joinLines_cons_cons (a b : String) (ls : List String) :
    joinLines (a :: b :: ls) = a ++ "\n" ++ joinLines (b :: ls) := rfl

/-! ### Characterizations of the three `sacctmgr` checks -/

theorem grp_exists_true_iff {w : World} {st : SchedState} {g : String}
    (hok : w.queriesOk = true) :
    slurm_group_exists w st g = true ↔
      "Account" = g ∨ ∃ a ∈ st.accounts, firstField (a ++ "|" ++ clusterName) = g := by
  have hdr : firstField "Account|Cluster" = "Account" := by decide
  unfold slurm_group_exists accountListLines
  rw [hok]
  simp only [if_true, List.any_cons, List.any_map, Bool.or_eq_true, List.any_eq_true,
    beq_iff_eq, hdr]
  simp [Function.comp]

theorem grp_exists_congr {w : World} {st1 st2 : SchedState} {g : String}
    (h : st1.accounts = st2.accounts) :
    slurm_group_exists w st1 g = slurm_group_exists w st2 g := by
  unfold slurm_group_exists accountListLines
  rw [h]

theorem rows_head_fst {L : String} {st : SchedState} {r : String × String}
    {rs : List (String × String)} (h : rowsOf L st = r :: rs) : r.1 = L := by
  have : r ∈ rowsOf L st := by rw [h]; exact List.mem_cons_self r rs
  have := (List.mem_filter.mp this).2
  exact beq_iff_eq.mp this

theorem joinLines_starts (L : String) (zs : List String) :
    L.data.isPrefixOf (joinLines (L :: zs)).data = true := by
  cases zs with
  | nil => exact isPrefixOf_self L.data
  | cons z zs' =>
    rw [joinLines_cons_cons]
    show L.data.isPrefixOf ((L ++ "\n").data ++ (joinLines (z :: zs')).data) = true
    show L.data.isPrefixOf (L.data ++ "\n".data ++ (joinLines (z :: zs')).data) = true
    rw [List.append_assoc]
    exact isPrefixOf_append_self L.data _

theorem user_exists_true_iff {w : World} {st : SchedState} {L : String}
    (hok : w.queriesOk = true) :
    slurm_user_exists w st L = true ↔
      rowsOf L st ≠ [] ∨ strContains L userHeader = true := by
  unfold slurm_user_exists userListOutput
  rw [hok]
  simp only [if_true]
  cases hr : rowsOf L st with
  | nil =>
    simp only [List.map_nil, hr]
    constructor
    · intro h; exact Or.inr h
    · rintro (h | h)
      · exact absurd rfl h
      · exact h
  | cons r rs =>
    simp only [List.map_cons]
    constructor
    · intro _; exact Or.inl (by simp)
    · intro _
      have hfst : r.1 = L := rows_head_fst hr
      rw [joinLines_cons_cons, joinLines_cons_cons]
      have hpre : L.data.isPrefixOf (joinLines (r.1 :: rs.map Prod.fst)).data = true := by
        rw [hfst]; exact joinLines_starts L (rs.map Prod.fst)
      calc strContains L ("User" ++ "\n" ++ ("----------" ++ "\n" ++ joinLines (r.1 :: rs.map Prod.fst)))
          = strContains L (("User" ++ "\n" ++ ("----------" ++ "\n")) ++ joinLines (r.1 :: rs.map Prod.fst)) := by
            unfold strContains
            show hasSub L.data _ = hasSub L.data _
            simp [List.append_assoc]
        _ = true := strContains_append _ hpre

theorem user_exists_congr {w : World} {st1 st2 : SchedState} {L : String}
    (h : rowsOf L st1 = rowsOf L st2) :
    slurm_user_exists w st1 L = slurm_user_exists w st2 L := by
  unfold slurm_user_exists userListOutput
  rw [h]

theorem in_group_true_iff {w : World} {st : SchedState} {L g : String}
    (hok : w.queriesOk = true) :
    slurm_user_in_group w st L g = true ↔
      g = defAcctHeader ∨ ∃ u ∈ rowsOf L st, g = u.2 := by
  unfold slurm_user_in_group defaultAcctLines
  rw [hok]
  simp only [if_true, List.any_cons, List.any_map, Bool.or_eq_true, List.any_eq_true,
    beq_iff_eq, List.mem_map]
  constructor
  · rintro (h | ⟨x, ⟨u, hu, rfl⟩, rfl⟩)
    · exact Or.inl h
    · exact Or.inr ⟨u, hu, rfl⟩
  · rintro (h | ⟨u, hu, rfl⟩)
    · exact Or.inl h
    · exact Or.inr ⟨u.2, ⟨u, hu, rfl⟩, rfl⟩

theorem in_group_congr {w : World} {st1 st2 : SchedState} {L g : String}
    (h : rowsOf L st1 = rowsOf L st2) :
    slurm_user_in_group w st1 L g = slurm_user_in_group w st2 L g := by
  unfold slurm_user_in_group defaultAcctLines
  rw [h]

/-! ### Effect of the mutating commands on the checks -/

theorem rowsOf_addAccount (L a : String) (st : SchedState) :
    rowsOf L (addAccount a st) = rowsOf L st := rfl

theorem accounts_addUser (l g : String) (st : SchedState) :
    (addUser l g st).accounts = st.accounts := rfl

theorem accounts_modifyDefault (l g : String) (st : SchedState) :
    (modifyDefault l g st).accounts = st.accounts := rfl

theorem accounts_addAccount (a : String) (st : SchedState) :
    (addAccount a st).accounts = st.accounts ++ [a] := rfl

theorem rowsOf_addUser_self (L g : String) (st : SchedState) :
    rowsOf L (addUser L g st) = rowsOf L st ++ [(L, g)] := by
  unfold rowsOf addUser
  rw [List.filter_append]
  simp

theorem rowsOf_addUser_ne {L l : String} (hne : L ≠ l) (g : String) (st : SchedState) :
    rowsOf L (addUser l g st) = rowsOf L st := by
  unfold rowsOf addUser
  rw [List.filter_append]
  have : [(l, g)].filter (fun u => u.1 == L) = [] := by
    simp [Ne.symm hne]
  simp [this]

theorem modify_keeps_fst (l g : String) (u : String × String) :
    ((if u.1 == l then (u.1, g) else u) : String × String).1 = u.1 := by
  split <;> rfl

theorem rowsOf_modifyDefault_self (L g : String) (st : SchedState) :
    rowsOf L (modifyDefault L g st) = (rowsOf L st).map (fun u => (u.1, g)) := by
  unfold rowsOf modifyDefault
  show (st.users.map _).filter _ = _
  rw [List.filter_map]
  have h1 : ∀ u ∈ st.users,
      ((fun (u : String × String) => u.1 == L) ∘
        (fun (u : String × String) => if u.1 == L then (u.1, g) else u)) u = (u.1 == L) := by
    intro u _
    show ((if u.1 == L then (u.1, g) else u).1 == L) = _
    rw [modify_keeps_fst]
  rw [List.filter_congr h1]
  apply List.map_congr_left
  intro u hu
  have := (List.mem_filter.mp hu).2
  show (if u.1 == L then (u.1, g) else u) = (u.1, g)
  rw [this]
  simp

theorem rowsOf_modifyDefault_ne {L l : String} (hne : L ≠ l) (g : String) (st : SchedState) :
    rowsOf L (modifyDefault l g st) = rowsOf L st := by
  unfold rowsOf modifyDefault
  show (st.users.map _).filter _ = _
  rw [List.filter_map]
  have h1 : ∀ u ∈ st.users,
      ((fun (u : String × String) => u.1 == L) ∘
        (fun (u : String × String) => if u.1 == l then (u.1, g) else u)) u = (u.1 == L) := by
    intro u _
    show ((if u.1 == l then (u.1, g) else u).1 == L) = _
    rw [modify_keeps_fst]
  rw [List.filter_congr h1]
  have h2 : ∀ u ∈ st.users.filter (fun (u : String × String) => u.1 == L),
      (if u.1 == l then ((u.1, g) : String × String) else u) = u := by
    intro u hu
    have hL : u.1 = L := beq_iff_eq.mp (List.mem_filter.mp hu).2
    have : (u.1 == l) = false := beq_eq_false_iff_ne.mpr (by rw [hL]; exact hne)
    rw [this]
    simp
  rw [List.map_congr_left h2, List.map_id']

/-! ### Applying an emitted action list -/

theorem applyActions_nil (st : SchedState) : applyActions [] st = st := rfl

theorem applyActions_cons (a : Action) (acts : List Action) (st : SchedState) :
    applyActions (a :: acts) st = applyActions acts (applyAction a st) := rfl

theorem applyActions_append (xs ys : List Action) (st : SchedState) :
    applyActions (xs ++ ys) st = applyActions ys (applyActions xs st) :=
  List.foldl_append _ _ _ _

theorem acct_mem_applyAction {g : String} {st : SchedState} (a : Action)
    (h : g ∈ st.accounts) : g ∈ (applyAction a st).accounts := by
  cases a <;> simp only [applyAction]
  case createAccount x => exact List.mem_append_left _ h
  case createUser l gg => exact h
  case setDefault l gg => exact h

theorem acct_mem_applyActions {g : String} {st : SchedState} (acts : List Action)
    (h : g ∈ st.accounts) : g ∈ (applyActions acts st).accounts := by
  induction acts generalizing st with
  | nil => exact h
  | cons a t ih => exact ih (acct_mem_applyAction a h)

theorem acct_mem_of_createAccount {g : String} {acts : List Action}
    (h : Action.createAccount g ∈ acts) (st : SchedState) :
    g ∈ (applyActions acts st).accounts := by
  induction acts generalizing st with
  | nil => cases h
  | cons a t ih =>
    rcases List.mem_cons.mp h with h1 | h2
    · subst h1
      rw [applyActions_cons]
      exact acct_mem_applyActions t (List.mem_append_right _ (List.mem_singleton.mpr rfl))
    · exact ih h2 _

theorem rows_ne_nil_applyAction {L : String} {st : SchedState} (a : Action)
    (h : rowsOf L st ≠ []) : rowsOf L (applyAction a st) ≠ [] := by
  cases a <;> simp only [applyAction]
  case createAccount x => rwa [rowsOf_addAccount]
  case createUser l gg =>
    by_cases hl : L = l
    · subst hl
      rw [rowsOf_addUser_self]
      simp
    · rwa [rowsOf_addUser_ne hl]
  case setDefault l gg =>
    by_cases hl : L = l
    · subst hl
      rw [rowsOf_modifyDefault_self]
      simpa using h
    · rwa [rowsOf_modifyDefault_ne hl]

theorem rows_ne_nil_applyActions {L : String} {st : SchedState} (acts : List Action)
    (h : rowsOf L st ≠ []) : rowsOf L (applyActions acts st) ≠ [] := by
  induction acts generalizing st with
  | nil => exact h
  | cons a t ih => exact ih (rows_ne_nil_applyAction a h)

theorem goodRow_applyAction {L g : String} {st : SchedState} {a : Action}
    (hok : okAct L g a) (h : goodRow L g st) : goodRow L g (applyAction a st) := by
  obtain ⟨u, hu, hu2⟩ := h
  cases a <;> simp only [applyAction]
  case createAccount x => exact ⟨u, by rwa [rowsOf_addAccount], hu2⟩
  case createUser l gg =>
    by_cases hl : L = l
    · subst hl
      exact ⟨u, by rw [rowsOf_addUser_self]; exact List.mem_append_left _ hu, hu2⟩
    · exact ⟨u, by rwa [rowsOf_addUser_ne hl], hu2⟩
  case setDefault l gg =>
    by_cases hl : L = l
    · subst hl
      have hgg : gg = g := hok rfl
      refine ⟨(u.1, g), ?_, rfl⟩
      rw [rowsOf_modifyDefault_self, hgg]
      exact List.mem_map.mpr ⟨u, hu, rfl⟩
    · exact ⟨u, by rwa [rowsOf_modifyDefault_ne hl], hu2⟩

theorem goodRow_applyActions {L g : String} {st : SchedState} {acts : List Action}
    (hall : ∀ a ∈ acts, okAct L g a) (h : goodRow L g st) :
    goodRow L g (applyActions acts st) := by
  induction acts generalizing st with
  | nil => exact h
  | cons a t ih =>
    rw [applyActions_cons]
    exact ih (fun x hx => hall x (List.mem_cons_of_mem a hx))
      (goodRow_applyAction (hall a (List.mem_cons_self a t)) h)

theorem goodRow_of_createUser_mem {L g : String} {acts : List Action}
    (hmem : Action.createUser L g ∈ acts) (hall : ∀ a ∈ acts, okAct L g a)
    (st : SchedState) : goodRow L g (applyActions acts st) := by
  obtain ⟨s, t, rfl⟩ := List.append_of_mem hmem
  rw [applyActions_append, applyActions_cons]
  refine goodRow_applyActions (fun x hx => hall x ?_) ?_
  · exact List.mem_append_right s (List.mem_cons_of_mem _ hx)
  · refine ⟨(L, g), ?_, rfl⟩
    show (L, g) ∈ rowsOf L (addUser L g (applyActions s st))
    rw [rowsOf_addUser_self]
    exact List.mem_append_right _ (List.mem_singleton.mpr rfl)

theorem goodRow_of_setDefault_mem {L g : String} {acts : List Action} {st : SchedState}
    (hmem : Action.setDefault L g ∈ acts) (hall : ∀ a ∈ acts, okAct L g a)
    (hrows : rowsOf L st ≠ []) : goodRow L g (applyActions acts st) := by
  obtain ⟨s, t, rfl⟩ := List.append_of_mem hmem
  rw [applyActions_append, applyActions_cons]
  refine goodRow_applyActions (fun x hx => hall x ?_) ?_
  · exact List.mem_append_right s (List.mem_cons_of_mem _ hx)
  · have h1 : rowsOf L (applyActions s st) ≠ [] := rows_ne_nil_applyActions s hrows
    cases hr : rowsOf L (applyActions s st) with
    | nil => exact absurd hr h1
    | cons r rs =>
      refine ⟨(r.1, g), ?_, rfl⟩
      show (r.1, g) ∈ rowsOf L (modifyDefault L g (applyActions s st))
      rw [rowsOf_modifyDefault_self, hr]
      exact List.mem_map.mpr ⟨r, List.mem_cons_self r rs, rfl⟩

/-! ### What a dry run emits: `processMembers` and `processGroups` in
preview mode, against a state they never mutate -/

theorem warnCount_cons (m : Lookup) (rest : List Lookup) :
    warnCount (m :: rest) = warnOf m + warnCount rest := by
  unfold warnCount
  rw [List.map_cons, List.sum_cons]

theorem processMembers_preview {w : World} {g : String} :
    ∀ (ms : List Lookup) (st : SchedState) (acts : List Action) (n : Nat),
      Lookup.err ∉ ms →
      processMembers true w g ms st acts n =
        ⟨st, acts ++ ms.filterMap (memberAct w st g), n + warnCount ms, StopKind.ok⟩ := by
  intro ms
  induction ms with
  | nil =>
    intro st acts n _
    simp [processMembers, warnCount]
  | cons m rest ih =>
    intro st acts n herr
    have herr2 : Lookup.err ∉ rest := fun hh => herr (List.mem_cons_of_mem _ hh)
    have hm : m ≠ Lookup.err := fun he => herr (he ▸ List.mem_cons_self m rest)
    cases m with
    | err => exact absurd rfl hm
    | found entries =>
      cases entries with
      | nil =>
        have h1 : processMembers true w g (Lookup.found [] :: rest) st acts n
            = processMembers true w g rest st acts n := rfl
        rw [h1, ih st acts n herr2]
        simp [memberAct, resolveMember, warnCount_cons, warnOf, List.filterMap_cons]
      | cons e es =>
        cases hx : extract_username e with
        | none =>
          have h1 : processMembers true w g (Lookup.found (e :: es) :: rest) st acts n
              = processMembers true w g rest st acts (n + 1) := by
            simp [processMembers, hx]
          rw [h1, ih st acts (n + 1) herr2]
          simp [memberAct, resolveMember, hx, warnCount_cons, warnOf,
            List.filterMap_cons, Nat.add_assoc]
        | some L =>
          cases hE : slurm_user_exists w st L with
          | false =>
            have h1 : processMembers true w g (Lookup.found (e :: es) :: rest) st acts n
                = processMembers true w g rest st (acts ++ [Action.createUser L g]) n := by
              simp [processMembers, hx, hE]
            rw [h1, ih _ _ _ herr2]
            simp [memberAct, resolveMember, hx, hE, warnCount_cons, warnOf,
              List.filterMap_cons, List.append_assoc]
          | true =>
            cases hG : slurm_user_in_group w st L g with
            | false =>
              have h1 : processMembers true w g (Lookup.found (e :: es) :: rest) st acts n
                  = processMembers true w g rest st (acts ++ [Action.setDefault L g]) n := by
                simp [processMembers, hx, hE, hG]
              rw [h1, ih _ _ _ herr2]
              simp [memberAct, resolveMember, hx, hE, hG, warnCount_cons, warnOf,
                List.filterMap_cons, List.append_assoc]
            | true =>
              have h1 : processMembers true w g (Lookup.found (e :: es) :: rest) st acts n
                  = processMembers true w g rest st acts n := by
                simp [processMembers, hx, hE, hG]
              rw [h1, ih _ _ _ herr2]
              simp [memberAct, resolveMember, hx, hE, hG, warnCount_cons, warnOf,
                List.filterMap_cons]

theorem add_to_slurmdbd_preview {w : World} {st : SchedState} {g : String}
    {ms : List Lookup} (herr : Lookup.err ∉ ms) :
    add_to_slurmdbd g ms true w st =
      ⟨st,
        (if slurm_group_exists w st g then [] else [Action.createAccount g]) ++
          ms.filterMap (memberAct w st g),
        warnCount ms, StopKind.ok⟩ := by
  cases hc : slurm_group_exists w st g with
  | false =>
    have h1 : add_to_slurmdbd g ms true w st
        = processMembers true w g ms st [Action.createAccount g] 0 := by
      simp [add_to_slurmdbd, hc]
    rw [h1, processMembers_preview ms st _ 0 herr]
    simp [hc]
  | true =>
    have h1 : add_to_slurmdbd g ms true w st
        = processMembers true w g ms st [] 0 := by
      simp [add_to_slurmdbd, hc]
    rw [h1, processMembers_preview ms st [] 0 herr]
    simp [hc]

theorem processGroups_preview (w : World) :
    ∀ (gs : List DirGroup) (st : SchedState),
      (∀ g ∈ gs, Lookup.err ∉ g.members) →
      processGroups true w gs st = ⟨st, runActs w st gs, runWarnCount gs, false⟩ := by
  intro gs
  induction gs with
  | nil =>
    intro st _
    simp [processGroups, runActs, runWarnCount]
  | cons g rest ih =>
    intro st herr
    have h1 : Lookup.err ∉ g.members := herr g (List.mem_cons_self g rest)
    have h2 : ∀ x ∈ rest, Lookup.err ∉ x.members :=
      fun x hx => herr x (List.mem_cons_of_mem g hx)
    show (match (add_to_slurmdbd g.name g.members true w st).stop with
      | StopKind.direrr => _
      | _ => _) = _
    rw [add_to_slurmdbd_preview h1]
    show (⟨(processGroups true w rest st).sched, _ ++ (processGroups true w rest st).acts,
      _ + (processGroups true w rest st).warns, (processGroups true w rest st).raised⟩ : RunOut) = _
    rw [ih st h2]
    simp [runActs, groupActs, runWarnCount]

/-! ### Locating emitted actions and the pairs that generated them -/

theorem mem_loginsOf {L : String} {ms : List Lookup} :
    L ∈ loginsOf ms ↔ ∃ m ∈ ms, resolveMember m = some L :=
  List.mem_filterMap

theorem mem_pairsOf_intro {gs : List DirGroup} {g : DirGroup} {m : Lookup} {L : String}
    (hg : g ∈ gs) (hm : m ∈ g.members) (hr : resolveMember m = some L) :
    (L, g.name) ∈ pairsOf gs := by
  induction gs with
  | nil => cases hg
  | cons x rest ih =>
    rcases List.mem_cons.mp hg with rfl | hg2
    · exact List.mem_append_left _
        (List.mem_map.mpr ⟨L, mem_loginsOf.mpr ⟨m, hm, hr⟩, rfl⟩)
    · exact List.mem_append_right _ (ih hg2)

theorem mem_pairsOf_elim {gs : List DirGroup} {p : String × String}
    (hp : p ∈ pairsOf gs) :
    ∃ g ∈ gs, p.2 = g.name ∧ ∃ m ∈ g.members, resolveMember m = some p.1 := by
  induction gs with
  | nil => cases hp
  | cons x rest ih =>
    rcases List.mem_append.mp hp with h1 | h2
    · obtain ⟨L, hL, rfl⟩ := List.mem_map.mp h1
      obtain ⟨m, hm, hr⟩ := mem_loginsOf.mp hL
      exact ⟨x, List.mem_cons_self x rest, rfl, m, hm, hr⟩
    · obtain ⟨g, hg, he, hrest⟩ := ih h2
      exact ⟨g, List.mem_cons_of_mem x hg, he, hrest⟩

theorem pairsOf_cons_subset {gs : List DirGroup} {x : DirGroup} {p : String × String}
    (hp : p ∈ pairsOf gs) : p ∈ pairsOf (x :: gs) :=
  List.mem_append_right _ hp

theorem memberAct_eq_some {w : World} {st : SchedState} {g : String} {m : Lookup}
    {a : Action} (h : memberAct w st g m = some a) :
    ∃ L, resolveMember m = some L ∧
      ((a = Action.createUser L g ∧ slurm_user_exists w st L = false) ∨
        (a = Action.setDefault L g ∧ slurm_user_exists w st L = true ∧
          slurm_user_in_group w st L g = false)) := by
  cases hr : resolveMember m with
  | none =>
    have hv : memberAct w st g m = none := by simp [memberAct, hr]
    rw [hv] at h
    cases h
  | some L =>
    refine ⟨L, rfl, ?_⟩
    cases hE : slurm_user_exists w st L with
    | false =>
      have hv : memberAct w st g m = some (Action.createUser L g) := by
        simp [memberAct, hr, hE]
      rw [hv] at h
      injection h with h2
      exact Or.inl ⟨h2.symm, rfl⟩
    | true =>
      cases hG : slurm_user_in_group w st L g with
      | false =>
        have hv : memberAct w st g m = some (Action.setDefault L g) := by
          simp [memberAct, hr, hE, hG]
        rw [hv] at h
        injection h with h2
        exact Or.inr ⟨h2.symm, rfl, rfl⟩
      | true =>
        have hv : memberAct w st g m = none := by simp [memberAct, hr, hE, hG]
        rw [hv] at h
        cases h

theorem mem_runActs_of_groupActs {w : World} {st : SchedState} {a : Action}
    {g : DirGroup} : ∀ {gs : List DirGroup}, g ∈ gs → a ∈ groupActs w st g →
    a ∈ runActs w st gs := by
  intro gs
  induction gs with
  | nil => intro hg _; cases hg
  | cons x rest ih =>
    intro hg ha
    rcases List.mem_cons.mp hg with rfl | hg2
    · exact List.mem_append_left _ ha
    · exact List.mem_append_right _ (ih hg2 ha)

theorem act_mem_runActs {w : World} {st : SchedState} {a : Action} :
    ∀ {gs : List DirGroup}, a ∈ runActs w st gs →
      (∃ g ∈ gs, a = Action.createAccount g.name) ∨
      (∃ p ∈ pairsOf gs, a = Action.createUser p.1 p.2 ∨ a = Action.setDefault p.1 p.2) := by
  intro gs
  induction gs with
  | nil => intro h; cases h
  | cons g rest ih =>
    intro h
    rcases List.mem_append.mp h with h1 | h2
    · unfold groupActs at h1
      rcases List.mem_append.mp h1 with ha | hb
      · cases hc : slurm_group_exists w st g.name with
        | true =>
          rw [hc] at ha
          simp at ha
        | false =>
          rw [hc] at ha
          simp at ha
          exact Or.inl ⟨g, List.mem_cons_self g rest, ha⟩
      · obtain ⟨m, hm, hma⟩ := List.mem_filterMap.mp hb
        obtain ⟨L, hr, hcs⟩ := memberAct_eq_some hma
        refine Or.inr ⟨(L, g.name),
          mem_pairsOf_intro (List.mem_cons_self g rest) hm hr, ?_⟩
        rcases hcs with ⟨rfl, _⟩ | ⟨rfl, _, _⟩
        · exact Or.inl rfl
        · exact Or.inr rfl
    · rcases ih h2 with ⟨g2, hg2, he⟩ | ⟨p, hp, he⟩
      · exact Or.inl ⟨g2, List.mem_cons_of_mem g hg2, he⟩
      · exact Or.inr ⟨p, pairsOf_cons_subset hp, he⟩

/-! ### Idempotence machinery: a satisfied state yields an empty dry run,
and applying a dry run's actions produces a satisfied state -/

theorem runActs_eq_nil_of_satisfied {w : World} {st : SchedState} :
    ∀ {gs : List DirGroup}, Satisfied w gs st → runActs w st gs = [] := by
  intro gs
  induction gs with
  | nil => intro _; rfl
  | cons g rest ih =>
    intro hs
    have hg : slurm_group_exists w st g.name = true := hs.1 g (List.mem_cons_self g rest)
    have hrest : Satisfied w rest st := by
      refine ⟨fun x hx => hs.1 x (List.mem_cons_of_mem g hx),
        fun p hp => hs.2 p (pairsOf_cons_subset hp)⟩
    show groupActs w st g ++ runActs w st rest = []
    rw [ih hrest]
    unfold groupActs
    rw [hg]
    simp only [if_true, List.nil_append, List.append_nil]
    rw [List.filterMap_eq_nil_iff]
    intro m hm
    cases hr : resolveMember m with
    | none => simp [memberAct, hr]
    | some L =>
      have hp : (L, g.name) ∈ pairsOf (g :: rest) :=
        mem_pairsOf_intro (List.mem_cons_self g rest) hm hr
      have hchecks := hs.2 (L, g.name) hp
      simp [memberAct, hr, hchecks.1, hchecks.2]

theorem satisfied_after {w : World} {gs : List DirGroup} {st0 : SchedState}
    (hok : w.queriesOk = true)
    (hwf : ∀ g ∈ gs, firstField (g.name ++ "|" ++ clusterName) = g.name)
    (hhd : ∀ p ∈ pairsOf gs, strContains p.1 userHeader = false)
    (hfun : ∀ p ∈ pairsOf gs, ∀ q ∈ pairsOf gs, p.1 = q.1 → p.2 = q.2) :
    Satisfied w gs (applyActions (runActs w st0 gs) st0) := by
  constructor
  · intro g hg
    cases hc : slurm_group_exists w st0 g.name with
    | true =>
      rcases (grp_exists_true_iff hok).mp hc with h | ⟨a, ha, hfa⟩
      · exact (grp_exists_true_iff hok).mpr (Or.inl h)
      · exact (grp_exists_true_iff hok).mpr
          (Or.inr ⟨a, acct_mem_applyActions _ ha, hfa⟩)
    | false =>
      have hmem : Action.createAccount g.name ∈ runActs w st0 gs := by
        apply mem_runActs_of_groupActs hg
        unfold groupActs
        rw [hc]
        simp
      exact (grp_exists_true_iff hok).mpr
        (Or.inr ⟨g.name, acct_mem_of_createAccount hmem st0, hwf g hg⟩)
  · intro p hp
    obtain ⟨g, hg, hp2, m, hm, hr⟩ := mem_pairsOf_elim hp
    have hokAll : ∀ a ∈ runActs w st0 gs, okAct p.1 p.2 a := by
      intro a haA
      rcases act_mem_runActs haA with ⟨g2, _, rfl⟩ | ⟨q, hq, hqe⟩
      · exact trivial
      · rcases hqe with rfl | rfl <;>
          exact fun h1 => hfun q hq p hp h1
    have goodRow_concl : goodRow p.1 p.2 (applyActions (runActs w st0 gs) st0) →
        slurm_user_exists w (applyActions (runActs w st0 gs) st0) p.1 = true ∧
          slurm_user_in_group w (applyActions (runActs w st0 gs) st0) p.1 p.2 = true := by
      intro hgr
      obtain ⟨u, hu, hu2⟩ := hgr
      constructor
      · refine (user_exists_true_iff hok).mpr (Or.inl ?_)
        intro hnil
        rw [hnil] at hu
        cases hu
      · exact (in_group_true_iff hok).mpr (Or.inr ⟨u, hu, hu2.symm⟩)
    cases hE : slurm_user_exists w st0 p.1 with
    | false =>
      have hma : memberAct w st0 g.name m = some (Action.createUser p.1 g.name) := by
        simp [memberAct, hr, hE]
      have hmem : Action.createUser p.1 g.name ∈ runActs w st0 gs :=
        mem_runActs_of_groupActs hg
          (List.mem_append_right _ (List.mem_filterMap.mpr ⟨m, hm, hma⟩))
      rw [hp2] at hokAll
      have hgr : goodRow p.1 p.2 (applyActions (runActs w st0 gs) st0) := by
        rw [hp2]
        exact goodRow_of_createUser_mem hmem hokAll st0
      exact goodRow_concl hgr
    | true =>
      have hrows0 : rowsOf p.1 st0 ≠ [] := by
        rcases (user_exists_true_iff hok).mp hE with h | h
        · exact h
        · rw [hhd p hp] at h
          cases h
      cases hG : slurm_user_in_group w st0 p.1 g.name with
      | false =>
        have hma : memberAct w st0 g.name m = some (Action.setDefault p.1 g.name) := by
          simp [memberAct, hr, hE, hG]
        have hmem : Action.setDefault p.1 g.name ∈ runActs w st0 gs :=
          mem_runActs_of_groupActs hg
            (List.mem_append_right _ (List.mem_filterMap.mpr ⟨m, hm, hma⟩))
        rw [hp2] at hokAll
        have hgr : goodRow p.1 p.2 (applyActions (runActs w st0 gs) st0) := by
          rw [hp2]
          exact goodRow_of_setDefault_mem hmem hokAll hrows0
        exact goodRow_concl hgr
      | true =>
        rcases (in_group_true_iff hok).mp hG with hhdr | ⟨u, hu, hgu⟩
        · constructor
          · refine (user_exists_true_iff hok).mpr (Or.inl ?_)
            exact rows_ne_nil_applyActions _ hrows0
          · rw [hp2]
            exact (in_group_true_iff hok).mpr (Or.inl hhdr)
        · have hgood : goodRow p.1 p.2 st0 := ⟨u, hu, by rw [hp2]; exact hgu.symm⟩
          exact goodRow_concl (goodRow_applyActions hokAll hgood)

/-! ### Preview/apply simulation machinery -/

theorem loginsOf_cons_none {m : Lookup} {rest : List Lookup}
    (h : resolveMember m = none) : loginsOf (m :: rest) = loginsOf rest := by
  simp [loginsOf, List.filterMap_cons, h]

theorem loginsOf_cons_some {m : Lookup} {rest : List Lookup} {L : String}
    (h : resolveMember m = some L) : loginsOf (m :: rest) = L :: loginsOf rest := by
  simp [loginsOf, List.filterMap_cons, h]

theorem pairsOf_fst (gname : String) (ms : List Lookup) :
    ((loginsOf ms).map (fun L => (L, gname))).map Prod.fst = loginsOf ms := by
  rw [List.map_map]
  exact List.map_id' (loginsOf ms)

theorem grp_exists_addAccount {w : World} {st : SchedState} {a g : String}
    (hok : w.queriesOk = true) :
    slurm_group_exists w (addAccount a st) g =
      (slurm_group_exists w st g || (firstField (a ++ "|" ++ clusterName) == g)) := by
  unfold slurm_group_exists accountListLines addAccount
  rw [hok]
  simp [List.map_append, List.any_append, Bool.or_assoc]

theorem processGroups_cons_ok {d : Bool} {w : World} {g : DirGroup}
    {gs : List DirGroup} {st : SchedState}
    (h : (add_to_slurmdbd g.name g.members d w st).stop ≠ StopKind.direrr) :
    processGroups d w (g :: gs) st =
      ⟨(processGroups d w gs (add_to_slurmdbd g.name g.members d w st).sched).sched,
        (add_to_slurmdbd g.name g.members d w st).acts ++
          (processGroups d w gs (add_to_slurmdbd g.name g.members d w st).sched).acts,
        (add_to_slurmdbd g.name g.members d w st).warns +
          (processGroups d w gs (add_to_slurmdbd g.name g.members d w st).sched).warns,
        (processGroups d w gs (add_to_slurmdbd g.name g.members d w st).sched).raised⟩ := by
  show (match (add_to_slurmdbd g.name g.members d w st).stop with
    | StopKind.direrr => _
    | _ => _) = _
  cases hst : (add_to_slurmdbd g.name g.members d w st).stop with
  | direrr => exact absurd hst h
  | ok => rfl
  | cpe => rfl

theorem members_sim {w : World} {st0 : SchedState} (hfail : w.failing = [])
    (g : String) :
    ∀ (ms : List Lookup) (st' : SchedState) (acts : List Action) (n : Nat)
      (dl : List String),
      (∀ L, L ∉ dl → rowsOf L st' = rowsOf L st0) →
      (∀ L ∈ loginsOf ms, L ∉ dl) →
      (loginsOf ms).Nodup →
      Lookup.err ∉ ms →
      (processMembers false w g ms st' acts n).acts
          = (processMembers true w g ms st0 acts n).acts ∧
        (processMembers false w g ms st' acts n).stop = StopKind.ok ∧
        (processMembers false w g ms st' acts n).sched.accounts = st'.accounts ∧
        (∀ L, L ∉ dl ++ loginsOf ms →
          rowsOf L (processMembers false w g ms st' acts n).sched = rowsOf L st0) := by
  intro ms
  induction ms with
  | nil =>
    intro st' acts n dl hinv _ _ _
    refine ⟨rfl, rfl, rfl, ?_⟩
    intro L hL
    have : L ∉ dl := by
      intro h
      exact hL (List.mem_append_left _ h)
    exact hinv L this
  | cons m rest ih =>
    intro st' acts n dl hinv hfresh hnd herr
    have herr2 : Lookup.err ∉ rest := fun hh => herr (List.mem_cons_of_mem _ hh)
    have hm : m ≠ Lookup.err := fun he => herr (he ▸ List.mem_cons_self m rest)
    cases m with
    | err => exact absurd rfl hm
    | found entries =>
      cases entries with
      | nil =>
        have hlog : loginsOf (Lookup.found [] :: rest) = loginsOf rest :=
          loginsOf_cons_none rfl
        have h1 : processMembers false w g (Lookup.found [] :: rest) st' acts n
            = processMembers false w g rest st' acts n := rfl
        have h2 : processMembers true w g (Lookup.found [] :: rest) st0 acts n
            = processMembers true w g rest st0 acts n := rfl
        rw [h1, h2]
        rw [hlog] at hfresh hnd
        have := ih st' acts n dl hinv hfresh hnd herr2
        refine ⟨this.1, this.2.1, this.2.2.1, ?_⟩
        intro L hL
        rw [hlog] at hL
        exact this.2.2.2 L hL
      | cons e es =>
        cases hx : extract_username e with
        | none =>
          have hres : resolveMember (Lookup.found (e :: es)) = none := by
            simp [resolveMember, hx]
          have hlog : loginsOf (Lookup.found (e :: es) :: rest) = loginsOf rest :=
            loginsOf_cons_none hres
          have h1 : processMembers false w g (Lookup.found (e :: es) :: rest) st' acts n
              = processMembers false w g rest st' acts (n + 1) := by
            simp [processMembers, hx]
          have h2 : processMembers true w g (Lookup.found (e :: es) :: rest) st0 acts n
              = processMembers true w g rest st0 acts (n + 1) := by
            simp [processMembers, hx]
          rw [h1, h2]
          rw [hlog] at hfresh hnd
          have := ih st' acts (n + 1) dl hinv hfresh hnd herr2
          refine ⟨this.1, this.2.1, this.2.2.1, ?_⟩
          intro L hL
          rw [hlog] at hL
          exact this.2.2.2 L hL
        | some L =>
          have hres : resolveMember (Lookup.found (e :: es)) = some L := by
            simp [resolveMember, hx]
          have hlog : loginsOf (Lookup.found (e :: es) :: rest) = L :: loginsOf rest :=
            loginsOf_cons_some hres
          rw [hlog] at hfresh hnd
          have hLdl : L ∉ dl := hfresh L (List.mem_cons_self L _)
          have hLrest : L ∉ loginsOf rest := (List.nodup_cons.mp hnd).1
          have hndrest : (loginsOf rest).Nodup := (List.nodup_cons.mp hnd).2
          have hrowsL : rowsOf L st' = rowsOf L st0 := hinv L hLdl
          have hEeq : slurm_user_exists w st' L = slurm_user_exists w st0 L :=
            user_exists_congr hrowsL
          have hGeq : slurm_user_in_group w st' L g = slurm_user_in_group w st0 L g :=
            in_group_congr hrowsL
          have hfresh2 : ∀ x ∈ loginsOf rest, x ∉ dl ++ [L] := by
            intro x hx2
            intro hmem
            rcases List.mem_append.mp hmem with h | h
            · exact hfresh x (List.mem_cons_of_mem L hx2) h
            · rw [List.mem_singleton] at h
              subst h
              exact hLrest hx2
          cases hE : slurm_user_exists w st0 L with
          | false =>
            have hE' : slurm_user_exists w st' L = false := by rw [hEeq, hE]
            have h1 : processMembers false w g (Lookup.found (e :: es) :: rest) st' acts n
                = processMembers false w g rest (addUser L g st')
                    (acts ++ [Action.createUser L g]) n := by
              simp [processMembers, hx, hE', hfail]
            have h2 : processMembers true w g (Lookup.found (e :: es) :: rest) st0 acts n
                = processMembers true w g rest st0 (acts ++ [Action.createUser L g]) n := by
              simp [processMembers, hx, hE]
            rw [h1, h2]
            have hinv2 : ∀ x, x ∉ dl ++ [L] → rowsOf x (addUser L g st') = rowsOf x st0 := by
              intro x hxm
              have hxdl : x ∉ dl := fun hh => hxm (List.mem_append_left _ hh)
              have hxL : x ≠ L := by
                intro hh
                exact hxm (List.mem_append_right _ (by rw [hh]; exact List.mem_singleton.mpr rfl))
              rw [rowsOf_addUser_ne hxL, hinv x hxdl]
            have := ih (addUser L g st') (acts ++ [Action.createUser L g]) n (dl ++ [L])
              hinv2 hfresh2 hndrest herr2
            refine ⟨this.1, this.2.1, ?_, ?_⟩
            · rw [this.2.2.1, accounts_addUser]
            · intro x hxm
              rw [hlog] at hxm
              apply this.2.2.2
              rw [List.append_assoc, List.singleton_append]
              exact hxm
          | true =>
            have hE' : slurm_user_exists w st' L = true := by rw [hEeq, hE]
            cases hG : slurm_user_in_group w st0 L g with
            | false =>
              have hG' : slurm_user_in_group w st' L g = false := by rw [hGeq, hG]
              have h1 : processMembers false w g (Lookup.found (e :: es) :: rest) st' acts n
                  = processMembers false w g rest (modifyDefault L g st')
                      (acts ++ [Action.setDefault L g]) n := by
                simp [processMembers, hx, hE', hG', hfail]
              have h2 : processMembers true w g (Lookup.found (e :: es) :: rest) st0 acts n
                  = processMembers true w g rest st0 (acts ++ [Action.setDefault L g]) n := by
                simp [processMembers, hx, hE, hG]
              rw [h1, h2]
              have hinv2 : ∀ x, x ∉ dl ++ [L] →
                  rowsOf x (modifyDefault L g st') = rowsOf x st0 := by
                intro x hxm
                have hxdl : x ∉ dl := fun hh => hxm (List.mem_append_left _ hh)
                have hxL : x ≠ L := by
                  intro hh
                  exact hxm (List.mem_append_right _ (by rw [hh]; exact List.mem_singleton.mpr rfl))
                rw [rowsOf_modifyDefault_ne hxL, hinv x hxdl]
              have := ih (modifyDefault L g st') (acts ++ [Action.setDefault L g]) n (dl ++ [L])
                hinv2 hfresh2 hndrest herr2
              refine ⟨this.1, this.2.1, ?_, ?_⟩
              · rw [this.2.2.1, accounts_modifyDefault]
              · intro x hxm
                rw [hlog] at hxm
                apply this.2.2.2
                rw [List.append_assoc, List.singleton_append]
                exact hxm
            | true =>
              have hG' : slurm_user_in_group w st' L g = true := by rw [hGeq, hG]
              have h1 : processMembers false w g (Lookup.found (e :: es) :: rest) st' acts n
                  = processMembers false w g rest st' acts n := by
                simp [processMembers, hx, hE', hG']
              have h2 : processMembers true w g (Lookup.found (e :: es) :: rest) st0 acts n
                  = processMembers true w g rest st0 acts n := by
                simp [processMembers, hx, hE, hG]
              rw [h1, h2]
              have hinv2 : ∀ x, x ∉ dl ++ [L] → rowsOf x st' = rowsOf x st0 := by
                intro x hxm
                exact hinv x (fun hh => hxm (List.mem_append_left _ hh))
              have := ih st' acts n (dl ++ [L]) hinv2 hfresh2 hndrest herr2
              refine ⟨this.1, this.2.1, this.2.2.1, ?_⟩
              intro x hxm
              rw [hlog] at hxm
              apply this.2.2.2
              rw [List.append_assoc, List.singleton_append]
              exact hxm

theorem pairsOf_cons_fst (g : DirGroup) (rest : List DirGroup) :
    (pairsOf (g :: rest)).map Prod.fst
      = loginsOf g.members ++ (pairsOf rest).map Prod.fst := by
  show (((loginsOf g.members).map (fun L => (L, g.name))) ++ pairsOf rest).map Prod.fst = _
  rw [List.map_append, pairsOf_fst]

theorem groups_sim {w : World} {st0 : SchedState} (hok : w.queriesOk = true)
    (hfail : w.failing = []) :
    ∀ (gs : List DirGroup) (st' : SchedState) (dl : List String),
      (∀ g ∈ gs, slurm_group_exists w st' g.name = slurm_group_exists w st0 g.name) →
      (∀ L, L ∉ dl → rowsOf L st' = rowsOf L st0) →
      (∀ L ∈ (pairsOf gs).map Prod.fst, L ∉ dl) →
      ((pairsOf gs).map Prod.fst).Nodup →
      (gs.map DirGroup.name).Nodup →
      (∀ g ∈ gs, firstField (g.name ++ "|" ++ clusterName) = g.name) →
      (∀ g ∈ gs, Lookup.err ∉ g.members) →
      (processGroups false w gs st').acts = (processGroups true w gs st0).acts := by
  intro gs
  induction gs with
  | nil =>
    intro st' dl _ _ _ _ _ _ _
    rfl
  | cons g rest ih =>
    intro st' dl hacct hrows hfreshd hndl hndn hwf herr
    have herr1 : Lookup.err ∉ g.members := herr g (List.mem_cons_self g rest)
    have herr2 : ∀ x ∈ rest, Lookup.err ∉ x.members :=
      fun x hx => herr x (List.mem_cons_of_mem g hx)
    rw [pairsOf_cons_fst] at hfreshd hndl
    have hnd1 : (loginsOf g.members).Nodup := (List.nodup_append.mp hndl).1
    have hnd2 : ((pairsOf rest).map Prod.fst).Nodup := (List.nodup_append.mp hndl).2.1
    have hdisj : (loginsOf g.members).Disjoint ((pairsOf rest).map Prod.fst) :=
      (List.nodup_append.mp hndl).2.2
    have hfresh1 : ∀ L ∈ loginsOf g.members, L ∉ dl :=
      fun L hL => hfreshd L (List.mem_append_left _ hL)
    have hfresh2 : ∀ L ∈ (pairsOf rest).map Prod.fst, L ∉ dl ++ loginsOf g.members := by
      intro L hL hmem
      rcases List.mem_append.mp hmem with h | h
      · exact hfreshd L (List.mem_append_right _ hL) h
      · exact hdisj h hL
    have hnameg : g.name ∉ rest.map DirGroup.name := (List.nodup_cons.mp hndn).1
    have hndn2 : (rest.map DirGroup.name).Nodup := (List.nodup_cons.mp hndn).2
    have hwf2 : ∀ x ∈ rest, firstField (x.name ++ "|" ++ clusterName) = x.name :=
      fun x hx => hwf x (List.mem_cons_of_mem g hx)
    have hacct2 : ∀ x ∈ rest, slurm_group_exists w st' x.name
        = slurm_group_exists w st0 x.name :=
      fun x hx => hacct x (List.mem_cons_of_mem g hx)
    have hcg : slurm_group_exists w st' g.name = slurm_group_exists w st0 g.name :=
      hacct g (List.mem_cons_self g rest)
    cases hc : slurm_group_exists w st0 g.name with
    | true =>
      have hcg1 : slurm_group_exists w st' g.name = true := by rw [hcg, hc]
      have hfa : add_to_slurmdbd g.name g.members false w st'
          = processMembers false w g.name g.members st' [] 0 := by
        simp [add_to_slurmdbd, hcg1]
      have hta : add_to_slurmdbd g.name g.members true w st0
          = processMembers true w g.name g.members st0 [] 0 := by
        simp [add_to_slurmdbd, hc]
      have hsim := members_sim hfail g.name g.members st' [] 0 dl hrows hfresh1 hnd1 herr1
      have hstopF : (add_to_slurmdbd g.name g.members false w st').stop
          ≠ StopKind.direrr := by
        rw [hfa, hsim.2.1]
        intro hh
        cases hh
      have hstopT : (add_to_slurmdbd g.name g.members true w st0).stop
          ≠ StopKind.direrr := by
        rw [hta, processMembers_preview g.members st0 [] 0 herr1]
        intro hh
        cases hh
      rw [processGroups_cons_ok hstopF, processGroups_cons_ok hstopT]
      show (add_to_slurmdbd g.name g.members false w st').acts ++ _
        = (add_to_slurmdbd g.name g.members true w st0).acts ++ _
      have hsched : (add_to_slurmdbd g.name g.members false w st').sched
          = (processMembers false w g.name g.members st' [] 0).sched := by rw [hfa]
      have haccts : (add_to_slurmdbd g.name g.members false w st').sched.accounts
          = st'.accounts := by rw [hsched, hsim.2.2.1]
      have hactseq : (add_to_slurmdbd g.name g.members false w st').acts
          = (add_to_slurmdbd g.name g.members true w st0).acts := by
        rw [hfa, hta, hsim.1]
      rw [hactseq]
      congr 1
      have hpre := processGroups_preview w rest st0 herr2
      have hsched0 : (add_to_slurmdbd g.name g.members true w st0).sched = st0 := by
        rw [hta, processMembers_preview g.members st0 [] 0 herr1]
      rw [hsched0]
      apply ih (add_to_slurmdbd g.name g.members false w st').sched
        (dl ++ loginsOf g.members)
      · intro x hx
        rw [grp_exists_congr haccts]
        exact hacct2 x hx
      · intro L hL
        rw [hsched]
        exact hsim.2.2.2 L hL
      · exact hfresh2
      · exact hnd2
      · exact hndn2
      · exact hwf2
      · exact herr2
    | false =>
      have hcg1 : slurm_group_exists w st' g.name = false := by rw [hcg, hc]
      have hfa : add_to_slurmdbd g.name g.members false w st'
          = processMembers false w g.name g.members (addAccount g.name st')
              [Action.createAccount g.name] 0 := by
        simp [add_to_slurmdbd, hcg1, hfail]
      have hta : add_to_slurmdbd g.name g.members true w st0
          = processMembers true w g.name g.members st0
              [Action.createAccount g.name] 0 := by
        simp [add_to_slurmdbd, hc]
      have hrowsA : ∀ L, L ∉ dl → rowsOf L (addAccount g.name st') = rowsOf L st0 := by
        intro L hL
        rw [rowsOf_addAccount]
        exact hrows L hL
      have hsim := members_sim hfail g.name g.members (addAccount g.name st')
        [Action.createAccount g.name] 0 dl hrowsA hfresh1 hnd1 herr1
      have hstopF : (add_to_slurmdbd g.name g.members false w st').stop
          ≠ StopKind.direrr := by
        rw [hfa, hsim.2.1]
        intro hh
        cases hh
      have hstopT : (add_to_slurmdbd g.name g.members true w st0).stop
          ≠ StopKind.direrr := by
        rw [hta, processMembers_preview g.members st0 _ 0 herr1]
        intro hh
        cases hh
      rw [processGroups_cons_ok hstopF, processGroups_cons_ok hstopT]
      show (add_to_slurmdbd g.name g.members false w st').acts ++ _
        = (add_to_slurmdbd g.name g.members true w st0).acts ++ _
      have hsched : (add_to_slurmdbd g.name g.members false w st').sched
          = (processMembers false w g.name g.members (addAccount g.name st')
              [Action.createAccount g.name] 0).sched := by rw [hfa]
      have haccts : (add_to_slurmdbd g.name g.members false w st').sched.accounts
          = (addAccount g.name st').accounts := by rw [hsched, hsim.2.2.1]
      have hactseq : (add_to_slurmdbd g.name g.members false w st').acts
          = (add_to_slurmdbd g.name g.members true w st0).acts := by
        rw [hfa, hta, hsim.1]
      rw [hactseq]
      congr 1
      have hsched0 : (add_to_slurmdbd g.name g.members true w st0).sched = st0 := by
        rw [hta, processMembers_preview g.members st0 _ 0 herr1]
      rw [hsched0]
      apply ih (add_to_slurmdbd g.name g.members false w st').sched
        (dl ++ loginsOf g.members)
      · intro x hx
        rw [grp_exists_congr haccts, grp_exists_addAccount hok, hwf g (List.mem_cons_self g rest)]
        have hxname : (g.name == x.name) = false := by
          apply beq_eq_false_iff_ne.mpr
          intro hh
          exact hnameg (hh ▸ List.mem_map.mpr ⟨x, hx, rfl⟩)
        rw [hxname, Bool.or_false]
        exact hacct2 x hx
      · intro L hL
        rw [hsched]
        exact hsim.2.2.2 L hL
      · exact hfresh2
      · exact hnd2
      · exact hndn2
      · exact hwf2
      · exact herr2

/-! ### Relating the checks to the claim vocabulary -/

theorem rowsOf_ne_nil_iff {L : String} {st : SchedState} :
    rowsOf L st ≠ [] ↔ L ∈ userLogins st := by
  unfold rowsOf userLogins
  constructor
  · intro h
    cases hf : st.users.filter (fun u => u.1 == L) with
    | nil => exact absurd hf h
    | cons r rs =>
      have hr : r ∈ st.users.filter (fun u => u.1 == L) := by
        rw [hf]
        exact List.mem_cons_self r rs
      have hr2 := List.mem_filter.mp hr
      exact List.mem_map.mpr ⟨r, hr2.1, beq_iff_eq.mp hr2.2⟩
  · intro h hf
    obtain ⟨u, hu, hu1⟩ := List.mem_map.mp h
    have hm : u ∈ st.users.filter (fun u => u.1 == L) :=
      List.mem_filter.mpr ⟨hu, beq_iff_eq.mpr hu1⟩
    rw [hf] at hm
    cases hm

theorem find_default_aux (L g : String) :
    ∀ (users : List (String × String)), (users.map Prod.fst).Nodup →
      ((∃ u ∈ users.filter (fun u => u.1 == L), g = u.2) ↔
        (users.find? (fun u => u.1 == L)).map Prod.snd = some g) := by
  intro users
  induction users with
  | nil =>
    intro _
    simp
  | cons u us ih =>
    intro hnd
    rw [List.map_cons, List.nodup_cons] at hnd
    cases hb : (u.1 == L) with
    | true =>
      have h1 : u.1 = L := beq_iff_eq.mp hb
      have hempty : us.filter (fun u => u.1 == L) = [] := by
        rw [List.filter_eq_nil_iff]
        intro v hv hvb
        apply hnd.1
        have hv1 : v.1 = L := beq_iff_eq.mp hvb
        exact List.mem_map.mpr ⟨v, hv, by rw [hv1, h1]⟩
      have hfind : List.find? (fun u => u.1 == L) (u :: us) = some u := by
        simp [List.find?, hb]
      rw [List.filter_cons, if_pos hb, hempty, hfind]
      simp [eq_comm]
    | false =>
      have hfind : List.find? (fun u => u.1 == L) (u :: us)
          = List.find? (fun u => u.1 == L) us := by
        simp [List.find?, hb]
      rw [List.filter_cons, if_neg (by rw [hb]; exact Bool.false_ne_true), hfind]
      exact ih hnd.2

theorem defaultOf_iff {st : SchedState} (hnd : (st.users.map Prod.fst).Nodup)
    (L g : String) :
    (∃ u ∈ rowsOf L st, g = u.2) ↔ defaultOf L st = some g :=
  find_default_aux L g st.users hnd

/-! ### The claims -/

/-- C1, counterexample: the claim predicts `CreateUserWithAccount(se,
slurm_bio)` for the resolvable member login `se` of group `slurm_bio` when
no scheduler user exists at all, but the program emits
`SetDefaultAccount(se, slurm_bio)` instead (the substring existence check
finds `se` inside the `User` header of the sacctmgr output). -/
theorem claim1_counterexample :
    (add_to_slurmdbd "slurm_bio" [seMember] true wOk emptySched).acts
        = [Action.createAccount "slurm_bio", Action.setDefault "se" "slurm_bio"] ∧
      emptySched.users = [] ∧
      Action.createUser "se" "slurm_bio"
        ∉ (add_to_slurmdbd "slurm_bio" [seMember] true wOk emptySched).acts := by
  decide

/-- C1, amended: for a group processed in preview mode, when the queries
succeed, every member lookup succeeds, the group name is neither of the
two header artifacts (`Account`, `Def Acct`), stored account names are
`|`-free, scheduler logins are unique, and no resolved login is a
substring of the `format=User` header text, the emitted actions are:
`CreateAccount` exactly when no account named `G.name` exists, then per
resolvable member login `L` in member-list order `CreateUserWithAccount`
when `L` does not exist, `SetDefaultAccount` when `L` exists with default
account different from `G.name`, and nothing otherwise. -/
theorem claim1_emission (w : World) (st : SchedState) (g : String) (ms : List Lookup)
    (hok : w.queriesOk = true)
    (herr : Lookup.err ∉ ms)
    (hga : g ≠ "Account")
    (hgd : g ≠ defAcctHeader)
    (haccts : ∀ a ∈ st.accounts, firstField (a ++ "|" ++ clusterName) = a)
    (hnd : (st.users.map Prod.fst).Nodup)
    (hlog : ∀ L ∈ loginsOf ms, strContains L userHeader = false) :
    (add_to_slurmdbd g ms true w st).acts =
      (if g ∈ st.accounts then [] else [Action.createAccount g]) ++
        ms.filterMap (fun m =>
          match resolveMember m with
          | none => none
          | some L =>
            if L ∈ userLogins st then
              (if defaultOf L st = some g then none
                else some (Action.setDefault L g))
            else some (Action.createUser L g)) := by
  rw [add_to_slurmdbd_preview herr]
  show ((if slurm_group_exists w st g then [] else [Action.createAccount g]) ++
    ms.filterMap (memberAct w st g)) = _
  have hiff : slurm_group_exists w st g = true ↔ g ∈ st.accounts := by
    rw [grp_exists_true_iff hok]
    constructor
    · rintro (h | ⟨a, ha, hfa⟩)
      · exact absurd h.symm hga
      · have hag : a = g := by rw [← haccts a ha, hfa]
        exact hag ▸ ha
    · intro h
      exact Or.inr ⟨g, h, haccts g h⟩
  congr 1
  · cases hc : slurm_group_exists w st g with
    | true => simp [hc, hiff.mp hc]
    | false =>
      have hnm : g ∉ st.accounts := by
        intro hmem
        rw [hiff.mpr hmem] at hc
        cases hc
      simp [hc, hnm]
  · apply List.filterMap_congr
    intro m hm
    cases hr : resolveMember m with
    | none => simp [memberAct, hr]
    | some L =>
      have hLm : L ∈ loginsOf ms := mem_loginsOf.mpr ⟨m, hm, hr⟩
      have hhd := hlog L hLm
      have hEiff : slurm_user_exists w st L = true ↔ L ∈ userLogins st := by
        rw [user_exists_true_iff hok]
        constructor
        · rintro (h | h)
          · exact rowsOf_ne_nil_iff.mp h
          · rw [hhd] at h
            cases h
        · intro h
          exact Or.inl (rowsOf_ne_nil_iff.mpr h)
      have hGiff : slurm_user_in_group w st L g = true ↔ defaultOf L st = some g := by
        rw [in_group_true_iff hok]
        constructor
        · rintro (h | hex)
          · exact absurd h hgd
          · exact (defaultOf_iff hnd L g).mp hex
        · intro h
          exact Or.inr ((defaultOf_iff hnd L g).mpr h)
      cases hE : slurm_user_exists w st L with
      | false =>
        have hnotin : L ∉ userLogins st := by
          intro hmem
          rw [hEiff.mpr hmem] at hE
          cases hE
        simp [memberAct, hr, hE, hnotin]
      | true =>
        have hin : L ∈ userLogins st := hEiff.mp hE
        cases hG : slurm_user_in_group w st L g with
        | false =>
          have hndef : ¬(defaultOf L st = some g) := by
            intro hdd
            rw [hGiff.mpr hdd] at hG
            cases hG
          simp [memberAct, hr, hE, hG, hin, hndef]
        | true =>
          simp [memberAct, hr, hE, hG, hin, hGiff.mp hG]

/-- C1, witness: the spec's worked scenario. Group `slurm_bio` with
members alice (no scheduler user) and bob (exists with default account
`other`), no account `slurm_bio`: the emitted actions in order are
`CreateAccount(slurm_bio)`, `CreateUserWithAccount(alice, slurm_bio)`,
`SetDefaultAccount(bob, slurm_bio)`. -/
theorem claim1_witness :
    (wOk.queriesOk = true ∧ Lookup.err ∉ bioGroup.members ∧
      "slurm_bio" ≠ "Account" ∧ "slurm_bio" ≠ defAcctHeader ∧
      (∀ a ∈ bobState.accounts, firstField (a ++ "|" ++ clusterName) = a) ∧
      (bobState.users.map Prod.fst).Nodup ∧
      (∀ L ∈ loginsOf bioGroup.members, strContains L userHeader = false)) ∧
    (add_to_slurmdbd "slurm_bio" bioGroup.members true wOk bobState).acts
      = [Action.createAccount "slurm_bio", Action.createUser "alice" "slurm_bio",
          Action.setDefault "bob" "slurm_bio"] :=
  ⟨⟨rfl, by decide, by decide, by decide, by decide, by decide, by decide⟩,
    (claim1_emission wOk bobState "slurm_bio" bioGroup.members rfl (by decide)
      (by decide) (by decide) (by decide) (by decide) (by decide)).trans (by decide)⟩

/-- C2, counterexample: user bob (default account `other`) appears in the
two groups `slurm_a` and `slurm_b`; after running the reconciliation and
applying its emitted actions (bob's default ends up `slurm_b`), a re-run
emits `SetDefaultAccount(bob, slurm_a)` again — the action list is not
empty, so the run is not idempotent. -/
theorem claim2_counterexample :
    (processGroups true wOk [aGroup, bGroup]
        (applyActions (processGroups true wOk [aGroup, bGroup] bobState).acts
          bobState)).acts
      = [Action.setDefault "bob" "slurm_a"] ∧
    (processGroups true wOk [aGroup, bGroup]
        (applyActions (processGroups true wOk [aGroup, bGroup] bobState).acts
          bobState)).acts ≠ [] := by
  decide

/-- C2, amended: re-running the reconciliation after applying the emitted
actions yields an empty action list, provided the queries succeed, every
member lookup succeeds, group names are `|`-free, no resolved login is a
substring of the `format=User` header text, and no login is claimed by two
different group names in the same run (the spec's own last-write-wins
multi-group case is the exception the counterexample exhibits). -/
theorem claim2_idempotent (w : World) (st0 : SchedState) (gs : List DirGroup)
    (hok : w.queriesOk = true)
    (herr : ∀ g ∈ gs, Lookup.err ∉ g.members)
    (hwf : ∀ g ∈ gs, firstField (g.name ++ "|" ++ clusterName) = g.name)
    (hhd : ∀ p ∈ pairsOf gs, strContains p.1 userHeader = false)
    (hfun : ∀ p ∈ pairsOf gs, ∀ q ∈ pairsOf gs, p.1 = q.1 → p.2 = q.2) :
    (processGroups true w gs
        (applyActions (processGroups true w gs st0).acts st0)).acts = [] := by
  rw [processGroups_preview w gs st0 herr]
  show (processGroups true w gs (applyActions (runActs w st0 gs) st0)).acts = []
  rw [processGroups_preview w gs _ herr]
  show runActs w (applyActions (runActs w st0 gs) st0) gs = []
  exact runActs_eq_nil_of_satisfied (satisfied_after hok hwf hhd hfun)

/-- C2, witness: the worked scenario (group `slurm_bio`, members alice and
bob, bob existing with default `other`) really is idempotent: applying the
first run's actions and re-running emits nothing. -/
theorem claim2_witness :
    ((∀ g ∈ [bioGroup], Lookup.err ∉ g.members) ∧
      (∀ g ∈ [bioGroup], firstField (g.name ++ "|" ++ clusterName) = g.name) ∧
      (∀ p ∈ pairsOf [bioGroup], strContains p.1 userHeader = false) ∧
      (∀ p ∈ pairsOf [bioGroup], ∀ q ∈ pairsOf [bioGroup], p.1 = q.1 → p.2 = q.2)) ∧
    (processGroups true wOk [bioGroup]
        (applyActions (processGroups true wOk [bioGroup] bobState).acts
          bobState)).acts = [] :=
  ⟨⟨by decide, by decide, by decide, by decide⟩,
    claim2_idempotent wOk bobState [bioGroup] rfl (by decide) (by decide)
      (by decide) (by decide)⟩

/-- C3: the user-existence check is a Python substring test (`username in
output`), not an exact comparison. At the failing input — login `se`, an
empty scheduler — the check reports the user as existing because `se`
occurs inside the `User` header text of the sacctmgr output, and the
member loop consequently suppresses `CreateUserWithAccount` and emits
`SetDefaultAccount` instead. -/
theorem claim3_substring_bug :
    slurm_user_exists wOk emptySched "se" = true ∧
    emptySched.users = [] ∧
    (add_to_slurmdbd "slurm_bio" [seMember] true wOk emptySched).acts
      = [Action.createAccount "slurm_bio", Action.setDefault "se" "slurm_bio"] := by
  decide

/-- C4, counterexample: a failed AD connection exits 0 (the claim demands
non-zero), a failed AD group query exits 0, and a run finding zero groups
also exits 0 — so the failure is not distinguishable from zero groups by
exit code. -/
theorem claim4_counterexample :
    mainExit false true [bioGroup] false wOk bobState = 0 ∧
    mainExit true false [bioGroup] false wOk bobState = 0 ∧
    mainExit true true [] false wOk bobState = 0 := by
  decide

/-- C4, amended: directory connection and query failures are logged but
the process exits 0 exactly like a zero-group run; a non-zero exit occurs
only when the group loop raises an uncaught exception (a member lookup
error). -/
theorem claim4_exit (dq : Bool) (groups : List DirGroup) (dry : Bool)
    (w : World) (st : SchedState) :
    mainExit false dq groups dry w st = 0 ∧
    mainExit true false groups dry w st = 0 ∧
    mainExit true true [] dry w st = 0 ∧
    (∀ gs : List DirGroup, gs ≠ [] →
      mainExit true true gs dry w st
        = (if (processGroups dry w gs st).raised then 1 else 0)) := by
  refine ⟨rfl, rfl, rfl, ?_⟩
  intro gs hgs
  cases gs with
  | nil => exact absurd rfl hgs
  | cons g rest => rfl

/-- C4, witness: the non-empty-group clause of the amended claim at the
worked scenario. -/
theorem claim4_witness :
    ([bioGroup] ≠ ([] : List DirGroup)) ∧
    mainExit true true [bioGroup] false wOk bobState
      = (if (processGroups false wOk [bioGroup] bobState).raised then 1 else 0) :=
  ⟨by decide, (claim4_exit true [bioGroup] false wOk bobState).2.2.2 [bioGroup] (by decide)⟩

/-- C5, counterexample: with every `sacctmgr list` query failing (nonzero
exit, empty stdout) and account `slurm_bio` already existing, the run is
not aborted: the existence check silently answers "does not exist" and a
duplicate `CreateAccount(slurm_bio)` is attempted, the group finishing
normally. -/
theorem claim5_counterexample :
    (add_to_slurmdbd "slurm_bio" [] false wBadQueries
        (⟨["slurm_bio"], []⟩ : SchedState)).acts
      = [Action.createAccount "slurm_bio"] ∧
    "slurm_bio" ∈ ((⟨["slurm_bio"], []⟩ : SchedState)).accounts ∧
    (add_to_slurmdbd "slurm_bio" [] false wBadQueries
        (⟨["slurm_bio"], []⟩ : SchedState)).stop = StopKind.ok := by
  decide

/-- C5, amended: when the snapshot queries fail (the commands exit nonzero
and produce no output; no exception is raised because the script does not
pass `check=True` on them), every existence and association check returns
`false` — i.e. a failed query is silently answered "does not exist" and
the run continues rather than aborting. -/
theorem claim5_failed_query (w : World) (st : SchedState) (g L : String)
    (hbad : w.queriesOk = false) :
    slurm_group_exists w st g = false ∧
    slurm_user_in_group w st L g = false ∧
    (L ≠ "" → slurm_user_exists w st L = false) := by
  refine ⟨?_, ?_, ?_⟩
  · simp [slurm_group_exists, accountListLines, hbad]
  · simp [slurm_user_in_group, defaultAcctLines, hbad]
  · intro hL
    unfold slurm_user_exists userListOutput
    rw [hbad]
    show strContains L "" = false
    have hdne : L.data ≠ [] := by
      intro hd
      apply hL
      cases L with
      | mk d =>
        cases hd
        rfl
    cases hdata : L.data with
    | nil => exact absurd hdata hdne
    | cons c cs =>
      unfold strContains hasSub
      rw [hdata]
      rfl

/-- C5, witness: the amended claim at a concrete failed-query world. -/
theorem claim5_witness :
    wBadQueries.queriesOk = false ∧
    slurm_group_exists wBadQueries bobState "slurm_bio" = false ∧
    slurm_user_in_group wBadQueries bobState "bob" "slurm_bio" = false ∧
    slurm_user_exists wBadQueries bobState "bob" = false :=
  ⟨rfl, (claim5_failed_query wBadQueries bobState "slurm_bio" "bob" rfl).1,
    (claim5_failed_query wBadQueries bobState "slurm_bio" "bob" rfl).2.1,
    (claim5_failed_query wBadQueries bobState "slurm_bio" "bob" rfl).2.2 (by decide)⟩

/-- C6, counterexample: with `CreateUserWithAccount(alice, slurm_bio)`
failing, the run attempts `CreateAccount(slurm_bio)` and the failing
action, then skips bob's `SetDefaultAccount` — a remaining member action
of the same group — while still processing the next group `slurm_chem`.
The claim that actions k+1..n are all still attempted is false. -/
theorem claim6_counterexample :
    (processGroups false wFailAlice [bioGroup, chemGroup] bobState).acts
      = [Action.createAccount "slurm_bio", Action.createUser "alice" "slurm_bio",
          Action.createAccount "slurm_chem"] ∧
    Action.setDefault "bob" "slurm_bio"
      ∉ (processGroups false wFailAlice [bioGroup, chemGroup] bobState).acts := by
  decide

/-- C6, amended: a failing action raises `CalledProcessError`, which the
`try` wrapping all of `add_to_slurmdbd` catches: the remaining actions of
the *current group* are skipped, but the run continues and the actions of
all subsequent groups are still attempted (the run's action list is the
truncated group's actions followed by the full processing of the remaining
groups). -/
theorem claim6_group_abort (w : World) (st : SchedState) (g : DirGroup)
    (rest : List DirGroup)
    (hcpe : (add_to_slurmdbd g.name g.members false w st).stop = StopKind.cpe) :
    (processGroups false w (g :: rest) st).acts
      = (add_to_slurmdbd g.name g.members false w st).acts ++
          (processGroups false w rest
            (add_to_slurmdbd g.name g.members false w st).sched).acts := by
  rw [processGroups_cons_ok (by rw [hcpe]; intro hh; cases hh)]

/-- C6, witness: the counterexample scenario instantiating the amended
claim — `slurm_bio`'s processing ends in a caught `CalledProcessError`,
and `slurm_chem` is still processed afterwards. -/
theorem claim6_witness :
    (add_to_slurmdbd bioGroup.name bioGroup.members false wFailAlice bobState).stop
        = StopKind.cpe ∧
    (processGroups false wFailAlice [bioGroup, chemGroup] bobState).acts
      = (add_to_slurmdbd bioGroup.name bioGroup.members false wFailAlice bobState).acts ++
          (processGroups false wFailAlice [chemGroup]
            (add_to_slurmdbd bioGroup.name bioGroup.members false wFailAlice
              bobState).sched).acts :=
  ⟨by decide, claim6_group_abort wFailAlice bobState bioGroup [chemGroup] (by decide)⟩

/-- C7, counterexample: a group whose member list resolves the login
`alice` twice, against an empty scheduler. Preview mode emits
`CreateUserWithAccount(alice, slurm_bio)` twice (its checks always see the
unmutated snapshot), while apply mode executes it once (its second check
sees the user just created): the preview action list is not identical to
apply mode's. -/
theorem claim7_counterexample :
    (processGroups true wOk [dupGroup] emptySched).acts
      = [Action.createAccount "slurm_bio", Action.createUser "alice" "slurm_bio",
          Action.createUser "alice" "slurm_bio"] ∧
    (processGroups false wOk [dupGroup] emptySched).acts
      = [Action.createAccount "slurm_bio", Action.createUser "alice" "slurm_bio"] ∧
    (processGroups true wOk [dupGroup] emptySched).acts
      ≠ (processGroups false wOk [dupGroup] emptySched).acts := by
  decide

/-- C7, amended: preview mode performs zero scheduler mutations, and its
emitted action list coincides with apply mode's provided the queries
succeed, no action fails, every member lookup succeeds, group names are
`|`-free and pairwise distinct, and the resolved member logins are
pairwise distinct across the run (so no apply-mode mutation can change a
later check, which is what the counterexample exploits). -/
theorem claim7_preview (w : World) (st0 : SchedState) (gs : List DirGroup)
    (hok : w.queriesOk = true)
    (hfail : w.failing = [])
    (herr : ∀ g ∈ gs, Lookup.err ∉ g.members)
    (hwf : ∀ g ∈ gs, firstField (g.name ++ "|" ++ clusterName) = g.name)
    (hndn : (gs.map DirGroup.name).Nodup)
    (hndl : ((pairsOf gs).map Prod.fst).Nodup) :
    (processGroups true w gs st0).acts = (processGroups false w gs st0).acts ∧
      (processGroups true w gs st0).sched = st0 := by
  constructor
  · exact (groups_sim hok hfail gs st0 [] (fun g _ => rfl) (fun L _ => rfl)
      (fun L _ h => List.not_mem_nil L h) hndl hndn hwf herr).symm
  · rw [processGroups_preview w gs st0 herr]

/-- C7, witness: the worked scenario, where preview and apply emit the
same three actions and preview leaves the scheduler untouched. -/
theorem claim7_witness :
    (wOk.queriesOk = true ∧ wOk.failing = [] ∧
      (∀ g ∈ [bioGroup], Lookup.err ∉ g.members) ∧
      (∀ g ∈ [bioGroup], firstField (g.name ++ "|" ++ clusterName) = g.name) ∧
      (([bioGroup].map DirGroup.name).Nodup) ∧
      ((pairsOf [bioGroup]).map Prod.fst).Nodup) ∧
    ((processGroups true wOk [bioGroup] bobState).acts
        = (processGroups false wOk [bioGroup] bobState).acts ∧
      (processGroups true wOk [bioGroup] bobState).sched = bobState) :=
  ⟨⟨rfl, rfl, by decide, by decide, by decide, by decide⟩,
    claim7_preview wOk bobState [bioGroup] rfl rfl (by decide) (by decide)
      (by decide) (by decide)⟩

/-- C8, counterexample: a member whose directory lookup raises is not
"skipped with a logged warning": the exception is not caught (only
`CalledProcessError` is), so the group's processing stops — the following
member alice is never examined and produces no action — and the run exits
1 via the uncaught exception instead of continuing. -/
theorem claim8_counterexample :
    (add_to_slurmdbd "slurm_bio" [Lookup.err, aliceMember] true wOk emptySched).acts
        = [Action.createAccount "slurm_bio"] ∧
    (add_to_slurmdbd "slurm_bio" [Lookup.err, aliceMember] true wOk emptySched).stop
        = StopKind.direrr ∧
    Action.createUser "alice" "slurm_bio"
      ∉ (add_to_slurmdbd "slurm_bio" [Lookup.err, aliceMember] true wOk emptySched).acts ∧
    mainExit true true [⟨"slurm_bio", [Lookup.err, aliceMember]⟩] true wOk emptySched = 1 := by
  decide

/-- C8, amended: a member whose lookup returns no entries is skipped
silently; one whose entry lacks a usable `sAMAccountName` is skipped with
a warning counted; neither produces an action or stops the loop. But a
member whose lookup raises ends the member loop immediately with the
uncaught-exception outcome. -/
theorem claim8_resolution (dry : Bool) (w : World) (g : String)
    (rest : List Lookup) (st : SchedState) (acts : List Action) (n : Nat) :
    (processMembers dry w g (Lookup.found [] :: rest) st acts n
        = processMembers dry w g rest st acts n) ∧
    (∀ (e : Entry) (es : List Entry), extract_username e = none →
      processMembers dry w g (Lookup.found (e :: es) :: rest) st acts n
        = processMembers dry w g rest st acts (n + 1)) ∧
    (processMembers dry w g (Lookup.err :: rest) st acts n
        = ⟨st, acts, n, StopKind.direrr⟩) := by
  refine ⟨rfl, ?_, rfl⟩
  intro e es hx
  simp [processMembers, hx]

/-- C8, witness: a member entry without `sAMAccountName` is skipped with
one warning and processing continues to the (empty) rest of the list. -/
theorem claim8_witness :
    extract_username noAttrEntry = none ∧
    processMembers true wOk "slurm_bio" [Lookup.found [noAttrEntry]] emptySched [] 0
      = processMembers true wOk "slurm_bio" [] emptySched [] (0 + 1) :=
  ⟨by decide,
    (claim8_resolution true wOk "slurm_bio" [] emptySched [] 0).2.1 noAttrEntry []
      (by decide)⟩

/-- C9: the account-existence check compares the group name for exact
equality against the first `|`-separated field of every output line,
including the `Account|Cluster` header line; consequently, whenever the
query succeeds (so the output begins with that header), a group named
exactly `Account` is reported as existing regardless of the stored
accounts. -/
theorem claim9_header (w : World) (st : SchedState) (hok : w.queriesOk = true) :
    slurm_group_exists w st "Account" = true ∧
    (∀ g : String, slurm_group_exists w st g = true ↔
      ∃ line ∈ accountListLines w st, firstField line = g) := by
  constructor
  · exact (grp_exists_true_iff hok).mpr (Or.inl rfl)
  · intro g
    unfold slurm_group_exists
    rw [List.any_eq_true]
    constructor
    · rintro ⟨line, hl, hb⟩
      exact ⟨line, hl, beq_iff_eq.mp hb⟩
    · rintro ⟨line, hl, he⟩
      exact ⟨line, hl, beq_iff_eq.mpr he⟩

/-- C9, witness: with no account stored at all, the group name `Account`
is still reported as existing. -/
theorem claim9_witness :
    wOk.queriesOk = true ∧ slurm_group_exists wOk emptySched "Account" = true :=
  ⟨rfl, (claim9_header wOk emptySched rfl).1⟩

/-- C10: `extract_username` is total: for every entry it returns the
first `sAMAccountName` value when the attribute is present with at least
one value and `None` otherwise (the `IndexError` raised by `[0]` on an
empty value list is caught inside the function), so no exception reaches
its caller. -/
theorem claim10_extract (e : Entry) :
    extract_username e = (getAttr e "sAMAccountName").bind List.head? := by
  unfold extract_username extract_usernameRaw
  cases h : getAttr e "sAMAccountName" with
  | none => simp [h]
  | some vs =>
    cases vs with
    | nil => simp [h]
    | cons v vt => simp [h]

end SlurmAdSync
